import Mathlib

/-!
# Futures of the raft package (future.go)

A shallow embedding of `future.go`: the static `errorFuture`, the channel based
`deferError` with the futures that embed it (`logFuture`, `snapshotFuture`,
`reqSnapshotFuture`) and the polling `shutdownFuture`.

Go values are modelled as follows.

* `error` is `Option ε` for an arbitrary type `ε` of non-nil error values;
  `nil` is `none`.
* A channel is its capacity, its buffered values (oldest first) and its closed
  flag; a channel variable is `Option (Chan α)`, `none` being the nil channel.
  `errCh` is unexported and never handed out by `future.go`, so the channel
  state is kept inside the `deferError` that owns it.
* A call either returns, blocks for ever in the state it has reached, or
  panics: `Outcome`.  Methods with a pointer receiver return the receiver's
  new state next to the outcome.
-/

namespace Raft

/-! ## Go runtime values -/

/-- Go's `error`: `none` is `nil`, `some x` a non-nil error value. -/
abbrev error (ε : Type) : Type := Option ε

/-- How a call ends: it returns a value, it blocks (with nobody else running,
for ever), or it panics. -/
inductive Outcome (α : Type) where
  | ret (a : α)
  | blocked
  | panicked
  deriving DecidableEq

/-- State of a Go channel made by `make(chan α, cap)`. -/
structure Chan (α : Type) where
  cap : Nat
  buf : List α
  closed : Bool
  deriving DecidableEq

/-- The channel `make(chan α, n)`: open and empty. -/
def makechan {α : Type} (n : Nat) : Chan α :=
  { cap := n, buf := [], closed := false }

/-- The send statement `ch <- v` with no receiver waiting.  On the nil channel
it blocks for ever, on a closed channel it panics, with room in the buffer it
stores `v`, otherwise it blocks. -/
def chansend {α : Type} (ch : Option (Chan α)) (v : α) : Outcome (Option (Chan α)) :=
  match ch with
  | none => .blocked
  | some c =>
    if c.closed then .panicked
    else if c.buf.length < c.cap then .ret (some { c with buf := c.buf ++ [v] })
    else .blocked

/-- The receive expression `<-ch` with no sender waiting.  On the nil channel
it blocks for ever; a buffered value is taken first; an empty closed channel
yields the zero value; an empty open channel blocks. -/
def chanrecv {α : Type} [Inhabited α] (ch : Option (Chan α)) : Outcome (α × Option (Chan α)) :=
  match ch with
  | none => .blocked
  | some c =>
    match c.buf with
    | v :: rest => .ret (v, some { c with buf := rest })
    | [] => if c.closed then .ret (default, some c) else .blocked

/-- The builtin `close(ch)`: panics on the nil channel and on a closed one. -/
def closechan {α : Type} (ch : Option (Chan α)) : Outcome (Option (Chan α)) :=
  match ch with
  | none => .panicked
  | some c => if c.closed then .panicked else .ret (some { c with closed := true })

/-! ## errorFuture -/

/-- Mirror of `errorFuture`: a static error. -/
structure errorFuture (ε : Type) where
  err : error ε
  deriving DecidableEq

/-- Method `errorFuture.Error` (value receiver): `return e.err`. -/
def errorFuture.Error {ε : Type} (e : errorFuture ε) : Outcome (error ε) :=
  .ret e.err

/-! ## deferError -/

/-- Mirror of `deferError`. -/
structure deferError (ε : Type) where
  err : error ε
  errCh : Option (Chan (error ε))
  deriving DecidableEq

/-- The zero value of `deferError`: `err` nil and `errCh` nil. -/
def deferError.zero {ε : Type} : deferError ε :=
  { err := none, errCh := none }

/-- Method `deferError.init`: `d.errCh = make(chan error, 1)`. -/
def deferError.init {ε : Type} (d : deferError ε) : deferError ε :=
  { d with errCh := some (makechan 1) }

/-- Method `deferError.Error`: return the cached `d.err` when it is not nil,
otherwise receive from `d.errCh`, store the value in `d.err` and return it. -/
def deferError.Error {ε : Type} (d : deferError ε) : deferError ε × Outcome (error ε) :=
  if d.err.isSome then (d, .ret d.err)
  else
    match chanrecv d.errCh with
    | .ret (v, ch) => ({ err := v, errCh := ch }, .ret v)
    | .blocked => (d, .blocked)
    | .panicked => (d, .panicked)

/-- Method `deferError.respond`: nothing on a nil `errCh`; otherwise send `err`
and then close the channel.  A step that blocks or panics ends the call in the
state reached so far. -/
def deferError.respond {ε : Type} (d : deferError ε) (err : error ε) : deferError ε × Outcome Unit :=
  match d.errCh with
  | none => (d, .ret ())
  | some _ =>
    match chansend d.errCh err with
    | .ret ch1 =>
      match closechan ch1 with
      | .ret ch2 => ({ d with errCh := ch2 }, .ret ())
      | .blocked => ({ d with errCh := ch1 }, .blocked)
      | .panicked => ({ d with errCh := ch1 }, .panicked)
    | .blocked => (d, .blocked)
    | .panicked => (d, .panicked)

/-- A freshly initialised `deferError`: `init` was called, `err` is nil and the
channel is the empty open channel of capacity one that `init` makes. -/
def deferError.Fresh {ε : Type} (d : deferError ε) : Prop :=
  d.err = none ∧ d.errCh = some (makechan 1)

/-- Sequential calls `d.Error()` repeated `n` times: the outcomes in call order
and the final state. -/
def deferError.ErrorN {ε : Type} : Nat → deferError ε → List (Outcome (error ε)) × deferError ε
  | 0, d => ([], d)
  | n + 1, d =>
    let r := d.Error
    let rest := deferError.ErrorN n r.1
    (r.2 :: rest.1, rest.2)

/-! ## Futures that embed deferError -/

/-- Mirror of `logFuture`.  The types `Log` and `quorumPolicy` of its two own
fields are declared outside `future.go` and are parameters here. -/
structure logFuture (ε Log Policy : Type) where
  deferError : deferError ε
  log : Log
  policy : Policy

/-- Promoted method `respond` of `logFuture`: it acts on the embedded
`deferError` only. -/
def logFuture.respond {ε Log Policy : Type} (l : logFuture ε Log Policy) (err : error ε) :
    logFuture ε Log Policy × Outcome Unit :=
  let r := l.deferError.respond err
  ({ l with deferError := r.1 }, r.2)

/-- Promoted method `Error` of `logFuture`. -/
def logFuture.Error {ε Log Policy : Type} (l : logFuture ε Log Policy) :
    logFuture ε Log Policy × Outcome (error ε) :=
  let r := l.deferError.Error
  ({ l with deferError := r.1 }, r.2)

/-- Sequential calls `l.Error()` repeated `n` times on a `logFuture`. -/
def logFuture.ErrorN {ε Log Policy : Type} :
    Nat → logFuture ε Log Policy → List (Outcome (error ε)) × logFuture ε Log Policy
  | 0, l => ([], l)
  | n + 1, l =>
    let r := l.Error
    let rest := logFuture.ErrorN n r.1
    (r.2 :: rest.1, rest.2)

/-- Mirror of `snapshotFuture`: a bare embedded `deferError`. -/
structure snapshotFuture (ε : Type) where
  deferError : deferError ε

/-- Mirror of `reqSnapshotFuture`.  `index` and `term` are `uint64` values
(only stored and read back, never computed with); `net.Addr` and `FSMSnapshot`
are declared outside `future.go` and are parameters. -/
structure reqSnapshotFuture (ε Addr FSMSnapshot : Type) where
  deferError : deferError ε
  index : Nat
  term : Nat
  peers : List Addr
  snapshot : FSMSnapshot

/-- Promoted method `init` of `reqSnapshotFuture`. -/
def reqSnapshotFuture.init {ε Addr FSMSnapshot : Type} (r : reqSnapshotFuture ε Addr FSMSnapshot) :
    reqSnapshotFuture ε Addr FSMSnapshot :=
  { r with deferError := r.deferError.init }

/-- Promoted method `respond` of `reqSnapshotFuture`. -/
def reqSnapshotFuture.respond {ε Addr FSMSnapshot : Type}
    (r : reqSnapshotFuture ε Addr FSMSnapshot) (err : error ε) :
    reqSnapshotFuture ε Addr FSMSnapshot × Outcome Unit :=
  let x := r.deferError.respond err
  ({ r with deferError := x.1 }, x.2)

/-- Promoted method `Error` of `reqSnapshotFuture`. -/
def reqSnapshotFuture.Error {ε Addr FSMSnapshot : Type}
    (r : reqSnapshotFuture ε Addr FSMSnapshot) :
    reqSnapshotFuture ε Addr FSMSnapshot × Outcome (error ε) :=
  let x := r.deferError.Error
  ({ r with deferError := x.1 }, x.2)

/-- The producer side of a snapshot request as the comment on the struct
describes it: the FSM runner stores the four snapshot details and then
responds. -/
def reqSnapshotFuture.produce {ε Addr FSMSnapshot : Type}
    (r : reqSnapshotFuture ε Addr FSMSnapshot) (index term : Nat) (peers : List Addr)
    (snapshot : FSMSnapshot) (err : error ε) :
    reqSnapshotFuture ε Addr FSMSnapshot × Outcome Unit :=
  reqSnapshotFuture.respond
    { r with index := index, term := term, peers := peers, snapshot := snapshot } err

/-! ## shutdownFuture

`shutdownFuture` holds nothing but the pointer `raft`.  The `Raft` struct and
its method `getRoutines` are declared outside `future.go`: the state the
pointer refers to is a value of a parameter type `ρ`, passed explicitly, and
`getRoutines` is a parameter reading it.  While `Error` sleeps the other
goroutines may change that state: `env k` is what they do to it during the
sleep that follows poll number `k`. -/

/-- Mirror of `shutdownFuture`: its only field is the pointer `raft`, modelled
by the state of the `Raft` value it points to. -/
structure shutdownFuture (ρ : Type) where
  raft : ρ

/-- The state of the shared `Raft` value when poll number `k` reads it: only
the environment has acted on it. -/
def shutdownFuture.world {ρ : Type} (env : Nat → ρ → ρ) (r : ρ) : Nat → ρ
  | 0 => r
  | k + 1 => env k (shutdownFuture.world env r k)

/-- The loop of `shutdownFuture.Error` from poll number `k` on, with at most
`fuel` polls: `none` when the fuel runs out before the loop exits, otherwise
the number of the poll at which the loop exited, the `Raft` state at that
moment and the returned error. -/
def shutdownFuture.ErrorFrom {ρ ε : Type} (getRoutines : ρ → Int) (env : Nat → ρ → ρ) :
    Nat → Nat → ρ → Option (Nat × ρ × error ε)
  | 0, _, _ => none
  | fuel + 1, k, r =>
    if getRoutines r > 0 then shutdownFuture.ErrorFrom getRoutines env fuel (k + 1) (env k r)
    else some (k, r, none)

/-- Method `shutdownFuture.Error`, given at most `fuel` polls; `s.raft` is the
state of the pointee when the call starts. -/
def shutdownFuture.Error {ρ ε : Type} (getRoutines : ρ → Int) (env : Nat → ρ → ρ)
    (s : shutdownFuture ρ) (fuel : Nat) : Option (Nat × ρ × error ε) :=
  shutdownFuture.ErrorFrom getRoutines env fuel 0 s.raft

/-! ## quorumPolicy -/

/-- Modelled from the spec: the type `quorumPolicy` of the field
`logFuture.policy` is declared outside `future.go`.  The spec describes it as a
fixed set of voter identities captured at creation, a running set of voters
that have acknowledged, and a majority threshold derived from the fixed set. -/
structure quorumPolicy (V : Type) where
  voters : Finset V
  voted : Finset V

/-- Modelled from the spec: creation of a `quorumPolicy` (missing from
`future.go`) with the full set of voting members and no vote recorded. -/
def quorumPolicy.create {V : Type} (voters : Finset V) : quorumPolicy V :=
  { voters := voters, voted := ∅ }

/-- Modelled from the spec: the majority threshold of a `quorumPolicy` (missing
from `future.go`), the least size of a strict majority of the fixed voter
set. -/
def quorumPolicy.majority {V : Type} (p : quorumPolicy V) : Nat :=
  p.voters.card / 2 + 1

/-- Modelled from the spec: `recordVote` of `quorumPolicy` (missing from
`future.go`) adds the voter to the set of voters that have acknowledged. -/
def quorumPolicy.recordVote {V : Type} [DecidableEq V] (p : quorumPolicy V) (v : V) :
    quorumPolicy V :=
  { p with voted := insert v p.voted }

/-- Modelled from the spec: `isSatisfied` of `quorumPolicy` (missing from
`future.go`) is true once a strict majority of the fixed voter set has recorded
a vote. -/
def quorumPolicy.isSatisfied {V : Type} [DecidableEq V] (p : quorumPolicy V) : Bool :=
  decide (p.majority ≤ (p.voters ∩ p.voted).card)

/-- The three voters of the example in the spec. -/
inductive Voter where
  | A
  | B
  | C
  deriving DecidableEq

/-! ## Concurrent readers of one deferError

Each goroutine is a program counter over the statements of the method it runs;
a schedule picks which goroutine executes its next statement.  A statement that
cannot proceed (a receive on an empty open channel) leaves everything as it
is.

Channel operations are synchronised by the runtime.  The field `d.err` is not:
`Error` reads and writes it with no lock, and an interface value occupies two
machine words, the type word and the data word.  A racing read of a word
observes the word of some value that is or was stored in the field, not
necessarily the latest one, and the two words of one read may come from
different stores.  The model therefore keeps the overwritten values of `d.err`
and lets the schedule choose, for each word that is read, which stored value
is observed.  Choice `0` is the current value: a schedule that uses no other
choice is a sequentially consistent execution. -/

/-- An interface value as a reader holds it after loading the two words of
`d.err`: `tab` is the stored value whose type word was loaded and `data` the
stored value whose data word was loaded, `none` standing for a zero word. -/
structure Words (ε : Type) where
  tab : error ε
  data : error ε
  deriving DecidableEq

/-- The two words of a value read in one piece. -/
def Words.whole {ε : Type} (v : error ε) : Words ε :=
  { tab := v, data := v }

/-- The stored value that a read of a word of `d.err` observes: `k` counts back
from the current value `cur` through the overwritten values `past`, newest
first; a `k` past the oldest observes the current value. -/
def observe {ε : Type} (cur : error ε) (past : List (error ε)) (k : Nat) : error ε :=
  (cur :: past).getD k cur

/-- Where a goroutine running `deferError.Error` stands: before the test
`d.err != nil`, before the receive `<-d.errCh`, before the assignment of the
received value to `d.err`, before `return d.err`, or returned with the two
words it loaded. -/
inductive ReaderPC (ε : Type) where
  | check
  | recv
  | store (v : error ε)
  | retErr
  | done (w : Words ε)
  deriving DecidableEq

/-- Where the goroutine running `deferError.respond` stands: before the test
`d.errCh == nil`, before the send, before the close, returned, or panicked. -/
inductive RespondPC where
  | guard
  | send
  | close
  | finished
  | panicked
  deriving DecidableEq

/-- One statement of `deferError.Error` executed by a reader; `past` holds the
overwritten values of `d.err`, and `k1` and `k2` choose the stored values whose
type word and data word the statement observes.  The test `d.err != nil` looks
at the type word; `return d.err` loads both words; the assignment overwrites
the current value. -/
def readerStep {ε : Type} (d : deferError ε) (past : List (error ε)) (k1 k2 : Nat) :
    ReaderPC ε → deferError ε × List (error ε) × ReaderPC ε
  | .check =>
    if (observe d.err past k1).isSome then (d, past, .retErr) else (d, past, .recv)
  | .recv =>
    match chanrecv d.errCh with
    | .ret (v, ch) => ({ d with errCh := ch }, past, .store v)
    | .blocked => (d, past, .recv)
    | .panicked => (d, past, .recv)
  | .store v => ({ d with err := v }, d.err :: past, .retErr)
  | .retErr =>
    (d, past, .done { tab := observe d.err past k1, data := observe d.err past k2 })
  | .done w => (d, past, .done w)

/-- One statement of `deferError.respond` with argument `err`. -/
def respondStep {ε : Type} (err : error ε) (d : deferError ε) : RespondPC → deferError ε × RespondPC
  | .guard => if d.errCh.isNone then (d, .finished) else (d, .send)
  | .send =>
    match chansend d.errCh err with
    | .ret ch => ({ d with errCh := ch }, .close)
    | .blocked => (d, .send)
    | .panicked => (d, .panicked)
  | .close =>
    match closechan d.errCh with
    | .ret ch => ({ d with errCh := ch }, .finished)
    | .blocked => (d, .close)
    | .panicked => (d, .panicked)
  | .finished => (d, .finished)
  | .panicked => (d, .panicked)

/-- One `deferError` shared by the readers and by the single caller of
`respond`, with the values of `d.err` that have been overwritten, newest
first. -/
structure Sys (ε : Type) where
  d : deferError ε
  past : List (error ε)
  readers : List (ReaderPC ε)
  responder : RespondPC
  deriving DecidableEq

/-- A scheduling choice: reader number `i` runs its next statement and its
reads of the type word and of the data word of `d.err` observe the stored
values number `k1` and `k2`; or the responder runs its next statement. -/
inductive Act where
  | reader (i k1 k2 : Nat)
  | respond
  deriving DecidableEq

/-- A reader step of a sequentially consistent execution: both words are those
of the current value. -/
def Act.now (i : Nat) : Act :=
  .reader i 0 0

/-- The system after the chosen goroutine has executed one statement. -/
def Sys.step {ε : Type} (err : error ε) (s : Sys ε) : Act → Sys ε
  | .reader i k1 k2 =>
    match s.readers[i]? with
    | none => s
    | some pc =>
      let r := readerStep s.d s.past k1 k2 pc
      { s with d := r.1, past := r.2.1, readers := s.readers.set i r.2.2 }
  | .respond =>
    let r := respondStep err s.d s.responder
    { s with d := r.1, responder := r.2 }

/-- The system after a whole schedule. -/
def Sys.run {ε : Type} (err : error ε) (sched : List Act) (s : Sys ε) : Sys ε :=
  sched.foldl (Sys.step err) s

/-- The start: `n` readers that have called `Error` and a responder that has
called `respond`, none of which has executed a statement yet; nothing has been
overwritten. -/
def Sys.start {ε : Type} (n : Nat) (d : deferError ε) : Sys ε :=
  { d := d, past := [], readers := List.replicate n .check, responder := .guard }

/-- Schedule on which two readers disagree: both test `d.err` first, the
responder runs to its end, then each reader in turn receives, stores and
returns.  Every read observes the current value. -/
def schedDisagree : List Act :=
  [Act.now 0, Act.now 1, .respond, .respond, .respond,
   Act.now 0, Act.now 0, Act.now 0, Act.now 1, Act.now 1, Act.now 1]

/-- Schedule on which the responded value is lost: both readers test `d.err`,
the responder runs to its end, both readers receive, the first stores what it
received, the second overwrites it with the zero value it received, and both
return what the field then holds.  Every read observes the current value. -/
def schedLost : List Act :=
  [Act.now 0, Act.now 1, .respond, .respond, .respond,
   Act.now 0, Act.now 1, Act.now 0, Act.now 1, Act.now 0, Act.now 1]

/-! ## The two states of a deferError after the first respond -/

/-- State of a fresh `deferError` after `respond(e)`: the value sits in the
closed channel and `err` has not been set yet. -/
def deferError.resolved {ε : Type} (e : error ε) : deferError ε :=
  { err := none, errCh := some { cap := 1, buf := [e], closed := true } }

/-- State after the first `Error()` that follows `respond(e)`: the channel is
drained and `err` caches `e`. -/
def deferError.drained {ε : Type} (e : error ε) : deferError ε :=
  { err := e, errCh := some { cap := 1, buf := [], closed := true } }

/-- The values a run with the single call `respond(e)` can store: `e` itself
and nil. -/
def Shown {ε : Type} (e v : error ε) : Prop :=
  v = e ∨ v = none

/-- Data invariant of the shared `deferError` while `respond(e)` is the only
sender: `err` is `e` or nil and the channel buffers nothing but `e`. -/
def deferError.Holds {ε : Type} (e : error ε) (d : deferError ε) : Prop :=
  Shown e d.err ∧ ∀ c, d.errCh = some c → ∀ x, x ∈ c.buf → x = e

/-- Data invariant of a reader: a value it has received is `e` or nil, and
each word it has returned is a word of `e` or of nil. -/
def ReaderPC.Holds {ε : Type} (e : error ε) (pc : ReaderPC ε) : Prop :=
  (∀ v, pc = .store v → Shown e v) ∧ (∀ w, pc = .done w → Shown e w.tab ∧ Shown e w.data)

/-- Data invariant of the whole system. -/
def Sys.Inv {ε : Type} (e : error ε) (s : Sys ε) : Prop :=
  s.d.Holds e ∧ (∀ v, v ∈ s.past → Shown e v) ∧ ∀ pc, pc ∈ s.readers → pc.Holds e

/-- Channel invariant that follows the responder: the channel has capacity one,
it is empty until the send has been executed, it is closed exactly when the
responder has returned, and the responder never panics. -/
def Sys.Live {ε : Type} (s : Sys ε) : Prop :=
  ∃ c, s.d.errCh = some c ∧ c.cap = 1 ∧ s.responder ≠ .panicked
    ∧ ((s.responder = .guard ∨ s.responder = .send) → c.buf = [])
    ∧ (c.closed = true ↔ s.responder = .finished)

/-- Number of statements the responder still has to execute. -/
def RespondPC.rank : RespondPC → Nat
  | .guard => 3
  | .send => 2
  | .close => 1
  | .finished => 0
  | .panicked => 0

/-- Number of statements a reader still has to execute at most. -/
def ReaderPC.rank {ε : Type} : ReaderPC ε → Nat
  | .check => 4
  | .recv => 3
  | .store _ => 2
  | .retErr => 1
  | .done _ => 0

/-! # Theorems -/

/-! ## Sequential behaviour of deferError -/

theorem deferError.fresh_init {ε : Type} (d : deferError ε) (h : d.err = none) :
    d.init.Fresh := by
  exact ⟨h, rfl⟩

theorem deferError.fresh_eq {ε : Type} (d : deferError ε) (h : d.Fresh) :
    d = { err := none, errCh := some (makechan 1) } := by
  cases d with
  | mk err errCh =>
    obtain ⟨h1, h2⟩ := h
    simp only at h1 h2
    subst h1
    subst h2
    rfl

theorem deferError.respond_fresh {ε : Type} (d : deferError ε) (e : error ε) (h : d.Fresh) :
    d.respond e = (deferError.resolved e, .ret ()) := by
  rw [deferError.fresh_eq d h]
  rfl

theorem deferError.respond_resolved {ε : Type} (a e : error ε) :
    (deferError.resolved a).respond e = (deferError.resolved a, .panicked) := by
  rfl

theorem deferError.Error_resolved {ε : Type} (e : error ε) :
    (deferError.resolved e).Error = (deferError.drained e, .ret e) := by
  rfl

theorem deferError.Error_drained {ε : Type} (e : error ε) :
    (deferError.drained e).Error = (deferError.drained e, .ret e) := by
  cases e with
  | none => rfl
  | some x => rfl

theorem deferError.ErrorN_drained {ε : Type} (e : error ε) (n : Nat) :
    deferError.ErrorN n (deferError.drained e)
      = (List.replicate n (.ret e), deferError.drained e) := by
  induction n with
  | zero => rfl
  | succ k ih =>
    simp only [deferError.ErrorN, deferError.Error_drained, ih, List.replicate_succ]

theorem deferError.ErrorN_resolved {ε : Type} (e : error ε) (n : Nat) :
    (deferError.ErrorN n (deferError.resolved e)).1 = List.replicate n (.ret e) := by
  cases n with
  | zero => rfl
  | succ k =>
    simp only [deferError.ErrorN, deferError.Error_resolved, deferError.ErrorN_drained,
      List.replicate_succ]

theorem logFuture.ErrorN_fst {ε Log Policy : Type} (n : Nat) (l : logFuture ε Log Policy) :
    (logFuture.ErrorN n l).1 = (deferError.ErrorN n l.deferError).1 := by
  induction n generalizing l with
  | zero => rfl
  | succ k ih =>
    simp only [logFuture.ErrorN, deferError.ErrorN, logFuture.Error, ih]

/-! ## Claims on the sequential behaviour -/

/-- C1 (as stated, refuted): on a freshly initialised `deferError` the second
of two `respond` calls does not complete normally; it panics on the send to
the channel the first call has closed. -/
theorem respond_twice_not_ignored :
    (((deferError.zero (ε := String)).init.respond (some "a")).1.respond (some "b")).2
        = Outcome.panicked
      ∧ (((deferError.zero (ε := String)).init.respond (some "a")).1.respond (some "b")).2
        ≠ Outcome.ret () := by
  constructor
  · rfl
  · intro h
    cases h

/-- C1 (amended): on a freshly initialised `deferError` the call `respond(errA)`
returns, a following `respond(errB)` panics and leaves the state as the first
call left it, and every `Error()` made afterwards returns `errA`.  The same
holds through the promoted methods of a `logFuture`, for all values of the two
errors, hence for `nil` and a commit failure in either order. -/
theorem respond_twice_first_value_wins {ε Log Policy : Type} (d : deferError ε)
    (l : logFuture ε Log Policy) (errA errB : error ε) (n : Nat)
    (hd : d.Fresh) (hl : l.deferError.Fresh) :
    ((d.respond errA).2 = .ret ()
      ∧ (d.respond errA).1.respond errB = ((d.respond errA).1, .panicked)
      ∧ (deferError.ErrorN n ((d.respond errA).1.respond errB).1).1
          = List.replicate n (.ret errA))
    ∧ ((l.respond errA).2 = .ret ()
      ∧ (l.respond errA).1.respond errB = ((l.respond errA).1, .panicked)
      ∧ (logFuture.ErrorN n ((l.respond errA).1.respond errB).1).1
          = List.replicate n (.ret errA)) := by
  have hl1 : (l.respond errA).1.deferError = deferError.resolved errA := by
    simp only [logFuture.respond, deferError.respond_fresh _ errA hl]
  refine ⟨⟨?_, ?_, ?_⟩, ?_, ?_, ?_⟩
  · rw [deferError.respond_fresh d errA hd]
  · rw [deferError.respond_fresh d errA hd, deferError.respond_resolved]
  · rw [deferError.respond_fresh d errA hd, deferError.respond_resolved,
      deferError.ErrorN_resolved]
  · simp only [logFuture.respond, deferError.respond_fresh _ errA hl]
  · simp only [logFuture.respond, deferError.respond_fresh _ errA hl,
      deferError.respond_resolved]
  · rw [logFuture.ErrorN_fst]
    simp only [logFuture.respond, deferError.respond_fresh _ errA hl,
      deferError.respond_resolved, deferError.ErrorN_resolved]

/-- Witness of C1 (amended): a quorum response followed by a commit failure on
a fresh `logFuture`, read three times. -/
theorem respond_twice_first_value_wins_witness :
    (deferError.zero (ε := String)).init.Fresh
    ∧ (((deferError.zero (ε := String)).init.respond none).1.respond (some "commit failed")
        = (((deferError.zero (ε := String)).init.respond none).1, .panicked))
    ∧ (logFuture.ErrorN 3
        (((logFuture.mk (deferError.zero (ε := String)).init () ()).respond none).1.respond
          (some "commit failed")).1).1
        = [.ret none, .ret none, .ret none] :=
  ⟨⟨rfl, rfl⟩,
    (respond_twice_first_value_wins (deferError.zero (ε := String)).init
      (logFuture.mk (deferError.zero (ε := String)).init () ()) none (some "commit failed") 3
      ⟨rfl, rfl⟩ ⟨rfl, rfl⟩).1.2.1,
    (respond_twice_first_value_wins (deferError.zero (ε := String)).init
      (logFuture.mk (deferError.zero (ε := String)).init () ()) none (some "commit failed") 3
      ⟨rfl, rfl⟩ ⟨rfl, rfl⟩).2.2.2⟩

/-- C2: after a single `respond(e)` on a freshly initialised `deferError`, each
of `n` sequential `Error()` calls returns `e`; none blocks or panics. -/
theorem Error_repeated_after_respond {ε : Type} (d : deferError ε) (e : error ε) (n : Nat)
    (h : d.Fresh) :
    (deferError.ErrorN n (d.respond e).1).1 = List.replicate n (.ret e) := by
  rw [deferError.respond_fresh d e h, deferError.ErrorN_resolved]

/-- Witness of C2: `respond(nil)` followed by three reads. -/
theorem Error_repeated_after_respond_witness :
    (deferError.zero (ε := String)).init.Fresh
    ∧ (deferError.ErrorN 3 ((deferError.zero (ε := String)).init.respond none).1).1
        = List.replicate 3 (.ret none) :=
  ⟨⟨rfl, rfl⟩,
    Error_repeated_after_respond (deferError.zero (ε := String)).init none 3 ⟨rfl, rfl⟩⟩

/-- C3: on an initialised `deferError` on which `respond` has not been called,
`Error()` blocks and changes neither `err` nor the channel; after a `respond(e)`
it returns `e`. -/
theorem Error_blocks_until_respond {ε : Type} (d : deferError ε) (h : d.Fresh) :
    d.Error = (d, .blocked) ∧ ∀ e : error ε, (d.respond e).1.Error.2 = .ret e := by
  constructor
  · rw [deferError.fresh_eq d h]
    rfl
  · intro e
    rw [deferError.respond_fresh d e h, deferError.Error_resolved]

/-- Witness of C3 on the zero value after `init`. -/
theorem Error_blocks_until_respond_witness :
    (deferError.zero (ε := String)).init.Error
        = ((deferError.zero (ε := String)).init, .blocked)
      ∧ ∀ e : error String, ((deferError.zero (ε := String)).init.respond e).1.Error.2 = .ret e :=
  Error_blocks_until_respond (deferError.zero (ε := String)).init ⟨rfl, rfl⟩

/-- C4: `errorFuture{err: e}.Error()` returns `e`; the method is a function of
the receiver value alone, so every call gives the same result. -/
theorem errorFuture_Error_returns_err {ε : Type} (e : error ε) (n : Nat) :
    (errorFuture.mk e).Error = .ret e
      ∧ (List.replicate n (errorFuture.mk e)).map errorFuture.Error
          = List.replicate n (.ret e) := by
  constructor
  · rfl
  · simp only [List.map_replicate]
    rfl

/-- C9: `init` installs an empty open channel of capacity one and keeps `err`;
the first `respond(e)` on a freshly initialised `deferError` returns, and
afterwards the channel is closed and holds exactly `e` while `err` is still
nil. -/
theorem first_respond_buffers_and_closes {ε : Type} (d0 d : deferError ε) (e : error ε)
    (h : d.Fresh) :
    (d0.init.errCh = some { cap := 1, buf := [], closed := false } ∧ d0.init.err = d0.err)
      ∧ d.respond e
          = ({ err := none, errCh := some { cap := 1, buf := [e], closed := true } }, .ret ()) := by
  refine ⟨⟨rfl, rfl⟩, ?_⟩
  rw [deferError.respond_fresh d e h]
  rfl

/-- Witness of C9 with a non-nil error. -/
theorem first_respond_buffers_and_closes_witness :
    (deferError.zero (ε := String)).init.respond (some "failed")
      = ({ err := none, errCh := some { cap := 1, buf := [some "failed"], closed := true } },
          .ret ()) :=
  (first_respond_buffers_and_closes deferError.zero (deferError.zero (ε := String)).init
    (some "failed") ⟨rfl, rfl⟩).2

/-- C10: on a `deferError` whose `errCh` is nil, `respond(e)` returns at once
and changes nothing; with `err` nil an `Error()` made afterwards blocks. -/
theorem respond_without_init_is_dropped {ε : Type} (d : deferError ε) (e : error ε)
    (h : d.errCh = none) :
    d.respond e = (d, .ret ()) ∧ (d.err = none → (d.respond e).1.Error = (d, .blocked)) := by
  cases d with
  | mk err errCh =>
    simp only at h
    subst h
    refine ⟨rfl, ?_⟩
    intro herr
    simp only at herr
    subst herr
    rfl

/-- Witness of C10 on the zero value. -/
theorem respond_without_init_is_dropped_witness :
    (deferError.zero (ε := String)).respond (some "lost") = (deferError.zero, .ret ())
      ∧ ((deferError.zero (ε := String)).respond (some "lost")).1.Error
          = (deferError.zero, .blocked) :=
  ⟨(respond_without_init_is_dropped (deferError.zero (ε := String)) (some "lost") rfl).1,
    (respond_without_init_is_dropped (deferError.zero (ε := String)) (some "lost") rfl).2 rfl⟩

/-! ## reqSnapshotFuture -/

/-- C6 (as stated, refuted): on a `reqSnapshotFuture` on which `init` was never
called, the producer writes the four fields and calls `respond(nil)`, and the
following `Error()` does not return nil: it blocks on the nil channel. -/
theorem reqSnapshot_uninitialised_never_returns :
    ((reqSnapshotFuture.produce
        (reqSnapshotFuture.mk (deferError.zero (ε := String)) 0 0 ([] : List String) "")
        7 3 ["10.0.0.1:8300"] "snap" none).1.Error).2 = Outcome.blocked
      ∧ ((reqSnapshotFuture.produce
        (reqSnapshotFuture.mk (deferError.zero (ε := String)) 0 0 ([] : List String) "")
        7 3 ["10.0.0.1:8300"] "snap" none).1.Error).2 ≠ Outcome.ret none := by
  constructor
  · rfl
  · intro h
    cases h

/-- C6 (amended): on a freshly initialised `reqSnapshotFuture` whose producer
writes `index`, `term`, `peers` and `snapshot` and then calls `respond(nil)`,
the call returns, the following `Error()` returns nil and the four fields read
afterwards are the values written.  For every `reqSnapshotFuture`, `init`,
`respond` and `Error` leave the four fields unchanged. -/
theorem reqSnapshot_payload_preserved {ε Addr FSMSnapshot : Type}
    (r q : reqSnapshotFuture ε Addr FSMSnapshot) (index term : Nat) (peers : List Addr)
    (snapshot : FSMSnapshot) (e : error ε) (h : r.deferError.Fresh) :
    ((r.produce index term peers snapshot none).2 = .ret ()
      ∧ (r.produce index term peers snapshot none).1.Error.2 = .ret none
      ∧ (r.produce index term peers snapshot none).1.Error.1.index = index
      ∧ (r.produce index term peers snapshot none).1.Error.1.term = term
      ∧ (r.produce index term peers snapshot none).1.Error.1.peers = peers
      ∧ (r.produce index term peers snapshot none).1.Error.1.snapshot = snapshot)
    ∧ (q.init.index = q.index ∧ q.init.term = q.term ∧ q.init.peers = q.peers
      ∧ q.init.snapshot = q.snapshot)
    ∧ ((q.respond e).1.index = q.index ∧ (q.respond e).1.term = q.term
      ∧ (q.respond e).1.peers = q.peers ∧ (q.respond e).1.snapshot = q.snapshot)
    ∧ (q.Error.1.index = q.index ∧ q.Error.1.term = q.term ∧ q.Error.1.peers = q.peers
      ∧ q.Error.1.snapshot = q.snapshot) := by
  refine ⟨⟨?_, ?_, rfl, rfl, rfl, rfl⟩, ⟨rfl, rfl, rfl, rfl⟩, ⟨rfl, rfl, rfl, rfl⟩,
    ⟨rfl, rfl, rfl, rfl⟩⟩
  · simp only [reqSnapshotFuture.produce, reqSnapshotFuture.respond,
      deferError.respond_fresh _ none h]
  · simp only [reqSnapshotFuture.produce, reqSnapshotFuture.respond, reqSnapshotFuture.Error,
      deferError.respond_fresh _ none h, deferError.Error_resolved]

/-- Witness of C6 (amended): the zero value after `init`, filled in by the
producer and read back. -/
theorem reqSnapshot_payload_preserved_witness :
    ((reqSnapshotFuture.mk (deferError.zero (ε := String)) 0 0 ([] : List String) "").init
        ).deferError.Fresh
    ∧ (((reqSnapshotFuture.mk (deferError.zero (ε := String)) 0 0 ([] : List String) "").init
        ).produce 7 3 ["10.0.0.1:8300"] "snap" none).1.Error.2 = .ret none
    ∧ (((reqSnapshotFuture.mk (deferError.zero (ε := String)) 0 0 ([] : List String) "").init
        ).produce 7 3 ["10.0.0.1:8300"] "snap" none).1.Error.1.index = 7 :=
  ⟨⟨rfl, rfl⟩,
    (reqSnapshot_payload_preserved
      (reqSnapshotFuture.mk (deferError.zero (ε := String)) 0 0 ([] : List String) "").init
      (reqSnapshotFuture.mk (deferError.zero (ε := String)) 0 0 ([] : List String) "")
      7 3 ["10.0.0.1:8300"] "snap" none ⟨rfl, rfl⟩).1.2.1,
    (reqSnapshot_payload_preserved
      (reqSnapshotFuture.mk (deferError.zero (ε := String)) 0 0 ([] : List String) "").init
      (reqSnapshotFuture.mk (deferError.zero (ε := String)) 0 0 ([] : List String) "")
      7 3 ["10.0.0.1:8300"] "snap" none ⟨rfl, rfl⟩).1.2.2.1⟩

/-! ## quorumPolicy -/

/-- C8: for the policy created over the voters A, B and C the majority is two;
after votes from A and then B it is satisfied, after a vote from A alone it
is not, and recording A twice gives the same policy state, hence the same
answer, as recording A once. -/
theorem quorum_of_three :
    (quorumPolicy.create ({Voter.A, Voter.B, Voter.C} : Finset Voter)).majority = 2
    ∧ (((quorumPolicy.create ({Voter.A, Voter.B, Voter.C} : Finset Voter)).recordVote
          Voter.A).recordVote Voter.B).isSatisfied = true
    ∧ ((quorumPolicy.create ({Voter.A, Voter.B, Voter.C} : Finset Voter)).recordVote
          Voter.A).isSatisfied = false
    ∧ (((quorumPolicy.create ({Voter.A, Voter.B, Voter.C} : Finset Voter)).recordVote
          Voter.A).recordVote Voter.A)
        = ((quorumPolicy.create ({Voter.A, Voter.B, Voter.C} : Finset Voter)).recordVote
            Voter.A)
    ∧ (((quorumPolicy.create ({Voter.A, Voter.B, Voter.C} : Finset Voter)).recordVote
          Voter.A).recordVote Voter.A).isSatisfied
        = ((quorumPolicy.create ({Voter.A, Voter.B, Voter.C} : Finset Voter)).recordVote
            Voter.A).isSatisfied := by
  refine ⟨by decide, by decide, by decide, ?_, by decide⟩
  simp only [quorumPolicy.recordVote, Finset.insert_idem]

/-! ## shutdownFuture -/

theorem shutdownFuture.ErrorFrom_positive {ρ ε : Type} (getRoutines : ρ → Int)
    (env : Nat → ρ → ρ) (r : ρ) (m fuel k : Nat)
    (hpos : ∀ j, j < m → 0 < getRoutines (shutdownFuture.world env r (k + j))) :
    shutdownFuture.ErrorFrom (ε := ε) getRoutines env (m + fuel) k (shutdownFuture.world env r k)
      = shutdownFuture.ErrorFrom getRoutines env fuel (k + m)
          (shutdownFuture.world env r (k + m)) := by
  induction m generalizing k with
  | zero => simp
  | succ m ih =>
    have h0 : 0 < getRoutines (shutdownFuture.world env r k) := by
      simpa using hpos 0 (Nat.succ_pos m)
    have hstep : ∀ j, j < m → 0 < getRoutines (shutdownFuture.world env r (k + 1 + j)) := by
      intro j hj
      have := hpos (j + 1) (Nat.succ_lt_succ hj)
      rwa [show k + (j + 1) = k + 1 + j by omega] at this
    have hf : m + 1 + fuel = (m + fuel) + 1 := by omega
    rw [hf, shutdownFuture.ErrorFrom]
    simp only [gt_iff_lt, h0, if_true]
    have hw : env k (shutdownFuture.world env r k) = shutdownFuture.world env r (k + 1) := rfl
    rw [hw, ih (k + 1) hstep]
    rw [show k + 1 + m = k + (m + 1) by omega]

theorem shutdownFuture.ErrorFrom_sound {ρ ε : Type} (getRoutines : ρ → Int)
    (env : Nat → ρ → ρ) (r : ρ) (fuel k n : Nat) (r1 : ρ) (e : error ε)
    (h : shutdownFuture.ErrorFrom getRoutines env fuel k (shutdownFuture.world env r k)
      = some (n, r1, e)) :
    e = none ∧ r1 = shutdownFuture.world env r n ∧ k ≤ n ∧ n < k + fuel
      ∧ getRoutines (shutdownFuture.world env r n) ≤ 0
      ∧ ∀ j, k ≤ j → j < n → 0 < getRoutines (shutdownFuture.world env r j) := by
  induction fuel generalizing k with
  | zero => simp [shutdownFuture.ErrorFrom] at h
  | succ fuel ih =>
    rw [shutdownFuture.ErrorFrom] at h
    by_cases hpos : getRoutines (shutdownFuture.world env r k) > 0
    · simp only [hpos, if_true] at h
      have hw : env k (shutdownFuture.world env r k) = shutdownFuture.world env r (k + 1) := rfl
      rw [hw] at h
      obtain ⟨h1, h2, h3, h4, h5, h6⟩ := ih (k + 1) h
      refine ⟨h1, h2, by omega, by omega, h5, ?_⟩
      intro j hj1 hj2
      by_cases hjk : j = k
      · subst hjk
        exact hpos
      · exact h6 j (by omega) hj2
    · simp only [hpos, if_false, Option.some.injEq, Prod.mk.injEq] at h
      obtain ⟨h1, h2, h3⟩ := h
      subst h1
      refine ⟨h3.symm, h2.symm, le_refl _, by omega, not_lt.mp hpos, ?_⟩
      intro j hj1 hj2
      omega

theorem shutdownFuture.world_id {ρ : Type} (r : ρ) (n : Nat) :
    shutdownFuture.world (fun _ x => x) r n = r := by
  induction n with
  | zero => rfl
  | succ n ih => simpa [shutdownFuture.world] using ih

theorem shutdownFuture.Error_none_of_positive {ρ ε : Type} (getRoutines : ρ → Int)
    (env : Nat → ρ → ρ) (r : ρ) (fuel : Nat)
    (hpos : ∀ j, j < fuel → 0 < getRoutines (shutdownFuture.world env r j)) :
    shutdownFuture.Error (ε := ε) getRoutines env ⟨r⟩ fuel = none := by
  have h := shutdownFuture.ErrorFrom_positive (ε := ε) getRoutines env r fuel 0 0
    (by intro j hj; simpa using hpos j hj)
  simp only [Nat.add_zero, Nat.zero_add] at h
  unfold shutdownFuture.Error
  have hw : shutdownFuture.world env r 0 = r := rfl
  rw [hw] at h
  rw [h]
  rfl

/-- C5: over the successive values of the routine counter that the polls of
`shutdownFuture.Error` observe, the call returns at the first poll whose value
is not positive, with a nil error, and at no earlier poll; when every observed
value is positive it does not return, however many polls it is given; it never
returns a non-nil error; and the `Raft` state at the return is the one the
environment alone has produced, so that with an idle environment it is the
initial state. -/
theorem shutdown_returns_at_first_nonpositive_poll {ρ ε : Type} (getRoutines : ρ → Int)
    (env : Nat → ρ → ρ) (r : ρ) :
    (∀ k : Nat, (∀ j, j < k → 0 < getRoutines (shutdownFuture.world env r j)) →
        getRoutines (shutdownFuture.world env r k) ≤ 0 →
        (∀ fuel, k < fuel →
          shutdownFuture.Error (ε := ε) getRoutines env ⟨r⟩ fuel
            = some (k, shutdownFuture.world env r k, none))
        ∧ (∀ fuel, fuel ≤ k → shutdownFuture.Error (ε := ε) getRoutines env ⟨r⟩ fuel = none))
    ∧ ((∀ j, 0 < getRoutines (shutdownFuture.world env r j)) →
        ∀ fuel, shutdownFuture.Error (ε := ε) getRoutines env ⟨r⟩ fuel = none)
    ∧ (∀ (fuel n : Nat) (r1 : ρ) (e : error ε),
        shutdownFuture.Error getRoutines env ⟨r⟩ fuel = some (n, r1, e) →
        e = none ∧ r1 = shutdownFuture.world env r n)
    ∧ (∀ (fuel n : Nat) (r1 : ρ) (e : error ε),
        shutdownFuture.Error getRoutines (fun _ x => x) ⟨r⟩ fuel = some (n, r1, e) → r1 = r) := by
  refine ⟨?_, ?_, ?_, ?_⟩
  · intro k hpos hk
    constructor
    · intro fuel hfuel
      obtain ⟨f, rfl⟩ : ∃ f, fuel = k + (f + 1) := ⟨fuel - k - 1, by omega⟩
      have h := shutdownFuture.ErrorFrom_positive (ε := ε) getRoutines env r k (f + 1) 0
        (by intro j hj; simpa using hpos j hj)
      simp only [Nat.zero_add] at h
      have hw : shutdownFuture.world env r 0 = r := rfl
      rw [hw] at h
      unfold shutdownFuture.Error
      rw [h, shutdownFuture.ErrorFrom]
      simp only [gt_iff_lt, not_lt.mpr hk, if_false]
    · intro fuel hfuel
      exact shutdownFuture.Error_none_of_positive getRoutines env r fuel
        (fun j hj => hpos j (by omega))
  · intro hpos fuel
    exact shutdownFuture.Error_none_of_positive getRoutines env r fuel (fun j _ => hpos j)
  · intro fuel n r1 e h
    have hs := shutdownFuture.ErrorFrom_sound getRoutines env r fuel 0 n r1 e h
    exact ⟨hs.1, hs.2.1⟩
  · intro fuel n r1 e h
    have hs := shutdownFuture.ErrorFrom_sound getRoutines (fun _ x => x) r fuel 0 n r1 e h
    rw [hs.2.1, shutdownFuture.world_id]

/-- Witness of C5: the counter is read as 3, 2, 1 and then 0; the call returns
nil at the fourth poll. -/
theorem shutdown_returns_at_first_nonpositive_poll_witness :
    shutdownFuture.Error (ε := String) (fun x : Int => x)
        (fun k _ => [(2 : Int), 1, 0, 5].getD k 7) ⟨3⟩ 10 = some (3, 0, none)
    ∧ shutdownFuture.Error (ε := String) (fun x : Int => x)
        (fun k _ => [(2 : Int), 1, 0, 5].getD k 7) ⟨3⟩ 3 = none :=
  ⟨((shutdown_returns_at_first_nonpositive_poll (ε := String) (fun x : Int => x)
      (fun k _ => [(2 : Int), 1, 0, 5].getD k 7) 3).1 3 (by decide) (by decide)).1 10
      (by decide),
    ((shutdown_returns_at_first_nonpositive_poll (ε := String) (fun x : Int => x)
      (fun k _ => [(2 : Int), 1, 0, 5].getD k 7) 3).1 3 (by decide) (by decide)).2 3
      (by decide)⟩

/-! ## Concurrent readers -/

theorem observe_shown {ε : Type} (e cur : error ε) (past : List (error ε)) (k : Nat)
    (hcur : Shown e cur) (hpast : ∀ v, v ∈ past → Shown e v) :
    Shown e (observe cur past k) := by
  unfold observe
  rw [List.getD_eq_getElem?_getD]
  cases h : (cur :: past)[k]? with
  | none => exact hcur
  | some v =>
    have hv : v ∈ cur :: past := List.getElem?_mem h
    rcases List.mem_cons.mp hv with hv | hv
    · exact hv ▸ hcur
    · exact hpast v hv

theorem ReaderPC.holds_of_no_value {ε : Type} (e : error ε) (pc : ReaderPC ε)
    (h : pc = .check ∨ pc = .recv ∨ pc = .retErr) : pc.Holds e := by
  constructor
  · intro v hv
    rcases h with h | h | h <;> subst h <;> cases hv
  · intro w hw
    rcases h with h | h | h <;> subst h <;> cases hw

theorem ReaderPC.holds_store {ε : Type} (e v : error ε) (h : Shown e v) :
    (ReaderPC.store v).Holds e := by
  constructor
  · intro w hw
    injection hw with hw
    exact hw ▸ h
  · intro w hw
    cases hw

theorem ReaderPC.holds_done {ε : Type} (e : error ε) (w : Words ε) (ht : Shown e w.tab)
    (hd : Shown e w.data) : (ReaderPC.done w).Holds e := by
  constructor
  · intro v hv
    cases hv
  · intro u hu
    injection hu with hu
    subst hu
    exact ⟨ht, hd⟩

theorem readerStep_check {ε : Type} (d : deferError ε) (past : List (error ε)) (k1 k2 : Nat) :
    readerStep d past k1 k2 .check = (d, past, .retErr)
      ∨ readerStep d past k1 k2 .check = (d, past, .recv) := by
  by_cases h : (observe d.err past k1).isSome = true
  · left
    simp only [readerStep, h, if_true]
  · right
    simp only [readerStep, h, if_false, Bool.false_eq_true]

theorem readerStep_holds {ε : Type} (e : error ε) (d : deferError ε) (past : List (error ε))
    (k1 k2 : Nat) (pc : ReaderPC ε) (hd : d.Holds e) (hp : ∀ v, v ∈ past → Shown e v)
    (hpc : pc.Holds e) :
    (readerStep d past k1 k2 pc).1.Holds e
      ∧ (∀ v, v ∈ (readerStep d past k1 k2 pc).2.1 → Shown e v)
      ∧ (readerStep d past k1 k2 pc).2.2.Holds e := by
  cases pc with
  | check =>
    rcases readerStep_check d past k1 k2 with h | h
    · rw [h]
      exact ⟨hd, hp, ReaderPC.holds_of_no_value e _ (Or.inr (Or.inr rfl))⟩
    · rw [h]
      exact ⟨hd, hp, ReaderPC.holds_of_no_value e _ (Or.inr (Or.inl rfl))⟩
  | recv =>
    obtain ⟨herr, hbuf⟩ := hd
    cases d with
    | mk err errCh =>
      cases errCh with
      | none =>
        exact ⟨⟨herr, hbuf⟩, hp, ReaderPC.holds_of_no_value e _ (Or.inr (Or.inl rfl))⟩
      | some c =>
        cases c with
        | mk cap buf closed =>
          cases buf with
          | nil =>
            cases closed with
            | false =>
              exact ⟨⟨herr, hbuf⟩, hp, ReaderPC.holds_of_no_value e _ (Or.inr (Or.inl rfl))⟩
            | true =>
              exact ⟨⟨herr, hbuf⟩, hp, ReaderPC.holds_store e _ (Or.inr rfl)⟩
          | cons x rest =>
            have hx : x = e := hbuf _ rfl x (List.mem_cons_self x rest)
            refine ⟨⟨herr, ?_⟩, hp, ReaderPC.holds_store e _ (Or.inl hx)⟩
            intro c hc y hy
            have hc2 : c = { cap := cap, buf := rest, closed := closed } := by
              injection hc with hc
              exact hc.symm
            subst hc2
            exact hbuf _ rfl y (List.mem_cons_of_mem x hy)
  | store v =>
    refine ⟨⟨hpc.1 v rfl, hd.2⟩, ?_, ReaderPC.holds_of_no_value e _ (Or.inr (Or.inr rfl))⟩
    intro u hu
    rcases List.mem_cons.mp hu with hu | hu
    · exact hu ▸ hd.1
    · exact hp u hu
  | retErr =>
    exact ⟨hd, hp, ReaderPC.holds_done e _ (observe_shown e _ _ k1 hd.1 hp)
      (observe_shown e _ _ k2 hd.1 hp)⟩
  | done w =>
    exact ⟨hd, hp, hpc⟩

theorem respondStep_holds {ε : Type} (e : error ε) (d : deferError ε) (pc : RespondPC)
    (hd : d.Holds e) : (respondStep e d pc).1.Holds e := by
  obtain ⟨herr, hbuf⟩ := hd
  cases d with
  | mk err errCh =>
    cases errCh with
    | none =>
      cases pc <;> exact ⟨herr, hbuf⟩
    | some c =>
      cases c with
      | mk cap buf closed =>
        cases pc with
        | guard => exact ⟨herr, hbuf⟩
        | send =>
          cases closed with
          | true => exact ⟨herr, hbuf⟩
          | false =>
            by_cases hlen : buf.length < cap
            · have hs : respondStep e
                  { err := err, errCh := some { cap := cap, buf := buf, closed := false } } .send
                  = ({ err := err,
                       errCh := some { cap := cap, buf := buf ++ [e], closed := false } },
                     .close) := by
                simp only [respondStep, chansend, hlen, if_true, Bool.false_eq_true, if_false]
              rw [hs]
              refine ⟨herr, ?_⟩
              intro c hc y hy
              have hc2 : c = { cap := cap, buf := buf ++ [e], closed := false } := by
                injection hc with hc
                exact hc.symm
              subst hc2
              rcases List.mem_append.mp hy with hy | hy
              · exact hbuf _ rfl y hy
              · exact List.mem_singleton.mp hy
            · have hs : respondStep e
                  { err := err, errCh := some { cap := cap, buf := buf, closed := false } } .send
                  = ({ err := err, errCh := some { cap := cap, buf := buf, closed := false } },
                     .send) := by
                simp only [respondStep, chansend, hlen, if_false, Bool.false_eq_true]
              rw [hs]
              exact ⟨herr, hbuf⟩
        | close =>
          cases closed with
          | true => exact ⟨herr, hbuf⟩
          | false =>
            refine ⟨herr, ?_⟩
            intro c hc y hy
            have hc2 : c = { cap := cap, buf := buf, closed := true } := by
              injection hc with hc
              exact hc.symm
            subst hc2
            exact hbuf _ rfl y hy
        | finished => exact ⟨herr, hbuf⟩
        | panicked => exact ⟨herr, hbuf⟩

theorem Sys.step_reader_none {ε : Type} (e : error ε) (s : Sys ε) (i k1 k2 : Nat)
    (h : s.readers[i]? = none) : s.step e (.reader i k1 k2) = s := by
  simp only [Sys.step, h]

theorem Sys.step_reader_some {ε : Type} (e : error ε) (s : Sys ε) (i k1 k2 : Nat)
    (pc : ReaderPC ε) (h : s.readers[i]? = some pc) :
    s.step e (.reader i k1 k2)
      = { d := (readerStep s.d s.past k1 k2 pc).1,
          past := (readerStep s.d s.past k1 k2 pc).2.1,
          readers := s.readers.set i (readerStep s.d s.past k1 k2 pc).2.2,
          responder := s.responder } := by
  simp only [Sys.step, h]

theorem Sys.step_respond {ε : Type} (e : error ε) (s : Sys ε) :
    s.step e .respond
      = { d := (respondStep e s.d s.responder).1, past := s.past, readers := s.readers,
          responder := (respondStep e s.d s.responder).2 } := by
  rfl

theorem Sys.step_inv {ε : Type} (e : error ε) (s : Sys ε) (a : Act) (h : s.Inv e) :
    (s.step e a).Inv e := by
  obtain ⟨hd, hp, hr⟩ := h
  cases a with
  | reader i k1 k2 =>
    cases hi : s.readers[i]? with
    | none =>
      rw [Sys.step_reader_none e s i k1 k2 hi]
      exact ⟨hd, hp, hr⟩
    | some pc =>
      rw [Sys.step_reader_some e s i k1 k2 pc hi]
      have hpc : pc.Holds e := hr pc (List.getElem?_mem hi)
      obtain ⟨h1, h2, h3⟩ := readerStep_holds e s.d s.past k1 k2 pc hd hp hpc
      refine ⟨h1, h2, ?_⟩
      intro q hq
      rcases List.mem_or_eq_of_mem_set hq with hq | hq
      · exact hr q hq
      · exact hq ▸ h3
  | respond =>
    rw [Sys.step_respond]
    exact ⟨respondStep_holds e s.d s.responder hd, hp, hr⟩

theorem Sys.run_inv {ε : Type} (e : error ε) (sched : List Act) (s : Sys ε) (h : s.Inv e) :
    (Sys.run e sched s).Inv e := by
  induction sched generalizing s with
  | nil => exact h
  | cons a rest ih => exact ih (s.step e a) (Sys.step_inv e s a h)

theorem Sys.start_inv {ε : Type} (e : error ε) (n : Nat) (d : deferError ε) (h : d.Fresh) :
    (Sys.start n d).Inv e := by
  rw [deferError.fresh_eq d h]
  refine ⟨⟨Or.inr rfl, ?_⟩, ?_, ?_⟩
  · intro c hc x hx
    simp only [Sys.start, makechan, Option.some.injEq] at hc
    subst hc
    cases hx
  · intro v hv
    cases hv
  · intro pc hpc
    have := List.eq_of_mem_replicate hpc
    subst this
    exact ReaderPC.holds_of_no_value e _ (Or.inl rfl)

theorem readerStep_errCh {ε : Type} (d : deferError ε) (past : List (error ε)) (k1 k2 : Nat)
    (pc : ReaderPC ε) (c : Chan (error ε)) (h : d.errCh = some c) :
    ∃ c1, (readerStep d past k1 k2 pc).1.errCh = some c1 ∧ c1.cap = c.cap
      ∧ c1.closed = c.closed ∧ (c.buf = [] → c1.buf = []) := by
  cases pc with
  | check =>
    rcases readerStep_check d past k1 k2 with hs | hs <;> rw [hs] <;>
      exact ⟨c, h, rfl, rfl, fun hb => hb⟩
  | recv =>
    cases d with
    | mk err errCh =>
      simp only at h
      subst h
      cases c with
      | mk cap buf closed =>
        cases buf with
        | nil =>
          cases closed with
          | false => exact ⟨_, rfl, rfl, rfl, fun hb => hb⟩
          | true => exact ⟨_, rfl, rfl, rfl, fun hb => hb⟩
        | cons x rest =>
          refine ⟨{ cap := cap, buf := rest, closed := closed }, rfl, rfl, rfl, ?_⟩
          intro hb
          cases hb
  | store v => exact ⟨c, h, rfl, rfl, fun hb => hb⟩
  | retErr => exact ⟨c, h, rfl, rfl, fun hb => hb⟩
  | done v => exact ⟨c, h, rfl, rfl, fun hb => hb⟩

theorem Sys.step_reader_live {ε : Type} (e : error ε) (s : Sys ε) (i k1 k2 : Nat)
    (h : s.Live) :
    (s.step e (.reader i k1 k2)).Live
      ∧ (s.step e (.reader i k1 k2)).responder = s.responder := by
  cases hi : s.readers[i]? with
  | none =>
    rw [Sys.step_reader_none e s i k1 k2 hi]
    exact ⟨h, rfl⟩
  | some pc =>
    rw [Sys.step_reader_some e s i k1 k2 pc hi]
    refine ⟨?_, rfl⟩
    obtain ⟨c, hc, hcap, hp, hbuf, hcl⟩ := h
    obtain ⟨c1, h1, h2, h3, h4⟩ := readerStep_errCh s.d s.past k1 k2 pc c hc
    exact ⟨c1, h1, h2.trans hcap, hp, fun hr => h4 (hbuf hr), by rw [h3]; exact hcl⟩

theorem respondStep_live {ε : Type} (e : error ε) (d : deferError ε) (pc : RespondPC)
    (c : Chan (error ε)) (hc : d.errCh = some c) (hcap : c.cap = 1) (hp : pc ≠ .panicked)
    (hbuf : (pc = .guard ∨ pc = .send) → c.buf = [])
    (hcl : c.closed = true ↔ pc = .finished) :
    (∃ c1, (respondStep e d pc).1.errCh = some c1 ∧ c1.cap = 1
      ∧ (respondStep e d pc).2 ≠ .panicked
      ∧ (((respondStep e d pc).2 = .guard ∨ (respondStep e d pc).2 = .send) → c1.buf = [])
      ∧ (c1.closed = true ↔ (respondStep e d pc).2 = .finished))
    ∧ (respondStep e d pc).2.rank = pc.rank - 1 := by
  cases d with
  | mk err errCh =>
    simp only at hc
    subst hc
    cases c with
    | mk cap buf closed =>
      simp only at hcap
      subst hcap
      cases pc with
      | guard =>
        have hb : buf = [] := hbuf (Or.inl rfl)
        subst hb
        refine ⟨⟨_, rfl, rfl, ?_, fun _ => rfl, ?_⟩, rfl⟩
        · intro hx
          cases hx
        · constructor
          · intro hx
            have := hcl.mp hx
            cases this
          · intro hx
            cases hx
      | send =>
        have hb : buf = [] := hbuf (Or.inr rfl)
        subst hb
        cases closed with
        | true =>
          have := hcl.mp rfl
          cases this
        | false =>
          refine ⟨⟨{ cap := 1, buf := [e], closed := false }, rfl, rfl, ?_, ?_, ?_⟩, rfl⟩
          · intro hx
            cases hx
          · intro hx
            rcases hx with hx | hx <;> cases hx
          · constructor
            · intro hx
              cases hx
            · intro hx
              cases hx
      | close =>
        cases closed with
        | true =>
          have := hcl.mp rfl
          cases this
        | false =>
          refine ⟨⟨{ cap := 1, buf := buf, closed := true }, rfl, rfl, ?_, ?_, ?_⟩, rfl⟩
          · intro hx
            cases hx
          · intro hx
            rcases hx with hx | hx <;> cases hx
          · exact ⟨fun _ => rfl, fun _ => rfl⟩
      | finished =>
        refine ⟨⟨_, rfl, rfl, hp, ?_, hcl⟩, rfl⟩
        intro hx
        rcases hx with hx | hx <;> cases hx
      | panicked => exact absurd rfl hp

theorem Sys.step_respond_live {ε : Type} (e : error ε) (s : Sys ε) (h : s.Live) :
    (s.step e .respond).Live
      ∧ (s.step e .respond).responder.rank = s.responder.rank - 1
      ∧ (s.step e .respond).readers = s.readers := by
  obtain ⟨c, hc, hcap, hp, hbuf, hcl⟩ := h
  obtain ⟨h1, h2⟩ := respondStep_live e s.d s.responder c hc hcap hp hbuf hcl
  rw [Sys.step_respond]
  exact ⟨h1, h2, rfl⟩

theorem Sys.step_live {ε : Type} (e : error ε) (s : Sys ε) (a : Act) (h : s.Live) :
    (s.step e a).Live := by
  cases a with
  | reader i k1 k2 => exact (Sys.step_reader_live e s i k1 k2 h).1
  | respond => exact (Sys.step_respond_live e s h).1

theorem Sys.run_live {ε : Type} (e : error ε) (sched : List Act) (s : Sys ε) (h : s.Live) :
    (Sys.run e sched s).Live := by
  induction sched generalizing s with
  | nil => exact h
  | cons a rest ih => exact ih (s.step e a) (Sys.step_live e s a h)

theorem Sys.start_live {ε : Type} (n : Nat) (d : deferError ε) (h : d.Fresh) :
    (Sys.start n d).Live := by
  rw [deferError.fresh_eq d h]
  refine ⟨makechan 1, rfl, rfl, ?_, fun _ => rfl, ?_⟩
  · intro hx
    cases hx
  · constructor
    · intro hx
      cases hx
    · intro hx
      cases hx

theorem Sys.length_step {ε : Type} (e : error ε) (s : Sys ε) (a : Act) :
    (s.step e a).readers.length = s.readers.length := by
  cases a with
  | reader i k1 k2 =>
    cases hi : s.readers[i]? with
    | none => rw [Sys.step_reader_none e s i k1 k2 hi]
    | some pc =>
      rw [Sys.step_reader_some e s i k1 k2 pc hi]
      exact List.length_set _ _ _
  | respond => rfl

theorem Sys.length_run {ε : Type} (e : error ε) (sched : List Act) (s : Sys ε) :
    (Sys.run e sched s).readers.length = s.readers.length := by
  induction sched generalizing s with
  | nil => rfl
  | cons a rest ih =>
    exact (ih (s.step e a)).trans (Sys.length_step e s a)

theorem Sys.run_append {ε : Type} (e : error ε) (a b : List Act) (s : Sys ε) :
    Sys.run e (a ++ b) s = Sys.run e b (Sys.run e a s) := by
  simp only [Sys.run, List.foldl_append]

theorem RespondPC.finished_of_rank {pc : RespondPC} (hp : pc ≠ .panicked) (h : pc.rank = 0) :
    pc = .finished := by
  cases pc with
  | guard => cases h
  | send => cases h
  | close => cases h
  | finished => rfl
  | panicked => exact absurd rfl hp

theorem Sys.respond_thrice {ε : Type} (e : error ε) (s : Sys ε) (h : s.Live) :
    (Sys.run e [.respond, .respond, .respond] s).Live
      ∧ (Sys.run e [.respond, .respond, .respond] s).responder = .finished
      ∧ (Sys.run e [.respond, .respond, .respond] s).readers = s.readers := by
  obtain ⟨l1, r1, q1⟩ := Sys.step_respond_live e s h
  obtain ⟨l2, r2, q2⟩ := Sys.step_respond_live e _ l1
  obtain ⟨l3, r3, q3⟩ := Sys.step_respond_live e _ l2
  have hrun : Sys.run e [.respond, .respond, .respond] s
      = ((s.step e .respond).step e .respond).step e .respond := rfl
  rw [hrun]
  refine ⟨l3, ?_, by rw [q3, q2, q1]⟩
  obtain ⟨c, _, _, hp, _, _⟩ := l3
  apply RespondPC.finished_of_rank hp
  have hle : s.responder.rank ≤ 3 := by
    cases s.responder <;> simp [RespondPC.rank]
  omega

theorem readerStep_rank {ε : Type} (d : deferError ε) (past : List (error ε)) (k1 k2 : Nat)
    (pc : ReaderPC ε) (c : Chan (error ε)) (hc : d.errCh = some c) (hcl : c.closed = true) :
    (readerStep d past k1 k2 pc).2.2.rank ≤ pc.rank - 1 := by
  cases pc with
  | check =>
    rcases readerStep_check d past k1 k2 with hs | hs <;> rw [hs] <;> simp [ReaderPC.rank]
  | recv =>
    cases d with
    | mk err errCh =>
      simp only at hc
      subst hc
      cases c with
      | mk cap buf closed =>
        simp only at hcl
        subst hcl
        cases buf with
        | nil => exact Nat.le_refl _
        | cons x rest => exact Nat.le_refl _
  | store v => exact Nat.le_refl _
  | retErr => exact Nat.le_refl _
  | done v => exact Nat.le_refl _

theorem Sys.reader_progress {ε : Type} (e : error ε) (i k1 k2 k : Nat) (s : Sys ε)
    (pc : ReaderPC ε) (hl : s.Live) (hf : s.responder = .finished)
    (hi : s.readers[i]? = some pc) :
    ∃ pc1, (Sys.run e (List.replicate k (.reader i k1 k2)) s).readers[i]? = some pc1
      ∧ pc1.rank ≤ pc.rank - k := by
  induction k generalizing s pc with
  | zero => exact ⟨pc, hi, Nat.le_refl _⟩
  | succ k ih =>
    have hlt : i < s.readers.length := (List.getElem?_eq_some.mp hi).1
    obtain ⟨hl1, hr1⟩ := Sys.step_reader_live e s i k1 k2 hl
    have hget : (s.step e (.reader i k1 k2)).readers[i]?
        = some (readerStep s.d s.past k1 k2 pc).2.2 := by
      rw [Sys.step_reader_some e s i k1 k2 pc hi]
      exact List.getElem?_set_self hlt
    obtain ⟨c, hc, _, _, _, hcl⟩ := hl
    have hrank := readerStep_rank s.d s.past k1 k2 pc c hc (hcl.mpr hf)
    obtain ⟨pc1, h1, h2⟩ := ih (s.step e (.reader i k1 k2)) (readerStep s.d s.past k1 k2 pc).2.2
      hl1 (hr1.trans hf) hget
    refine ⟨pc1, ?_, by omega⟩
    rw [List.replicate_succ]
    exact h1

theorem ReaderPC.done_of_rank {ε : Type} {pc : ReaderPC ε} (h : pc.rank = 0) :
    ∃ v, pc = .done v := by
  cases pc with
  | check => cases h
  | recv => cases h
  | store v => cases h
  | retErr => cases h
  | done v => exact ⟨v, rfl⟩

theorem ReaderPC.rank_le {ε : Type} (pc : ReaderPC ε) : pc.rank ≤ 4 := by
  cases pc <;> simp [ReaderPC.rank]

theorem Sys.run_schedDisagree {ε : Type} (x : ε) (d : deferError ε) (h : d.Fresh) :
    (Sys.run (some x) schedDisagree (Sys.start 2 d)).readers
      = [.done (Words.whole (some x)), .done (Words.whole none)] := by
  rw [deferError.fresh_eq d h]
  simp [Sys.run, schedDisagree, Act.now, Sys.step, Sys.start, readerStep, respondStep, makechan,
    chansend, chanrecv, closechan, observe, Words.whole]
  rfl

theorem Sys.run_schedLost {ε : Type} (x : ε) (d : deferError ε) (h : d.Fresh) :
    (Sys.run (some x) schedLost (Sys.start 2 d)).readers
        = [.done (Words.whole none), .done (Words.whole none)]
      ∧ (Sys.run (some x) schedLost (Sys.start 2 d)).responder = .finished := by
  rw [deferError.fresh_eq d h]
  constructor
  · simp [Sys.run, schedLost, Act.now, Sys.step, Sys.start, readerStep, respondStep, makechan,
      chansend, chanrecv, closechan, observe, Words.whole]
    rfl
  · rfl

/-- C7 (as stated, refuted): two readers test `d.err` before the responder
runs; `respond` then sends a non-nil error and closes the channel; the first
reader receives the error and returns it, the second receives the zero value
from the closed channel and returns nil.  Every read on this schedule observes
the current value of `d.err`. -/
theorem concurrent_readers_disagree :
    (deferError.zero (ε := String)).init.Fresh
    ∧ (Sys.run (some "boom")
        [.reader 0 0 0, .reader 1 0 0, .respond, .respond, .respond,
         .reader 0 0 0, .reader 0 0 0, .reader 0 0 0,
         .reader 1 0 0, .reader 1 0 0, .reader 1 0 0]
        (Sys.start 2 (deferError.zero (ε := String)).init)).readers
      = [.done (Words.whole (some "boom")), .done (Words.whole none)]
    ∧ ¬ (∀ (sched : List Act) (i : Nat) (w : Words String),
        (Sys.run (some "boom") sched
          (Sys.start 2 (deferError.zero (ε := String)).init)).readers[i]? = some (.done w) →
        w = Words.whole (some "boom")) := by
  refine ⟨⟨rfl, rfl⟩, rfl, ?_⟩
  intro h
  have h1 := h [.reader 0 0 0, .reader 1 0 0, .respond, .respond, .respond,
    .reader 0 0 0, .reader 0 0 0, .reader 0 0 0,
    .reader 1 0 0, .reader 1 0 0, .reader 1 0 0] 1 (Words.whole none) rfl
  cases h1

/-- C7 (amended): for a freshly initialised `deferError`, any number of readers
and a single `respond(e)`: when `e` is nil, under every interleaving and
whatever stored value each racing read of `d.err` observes, every reader that
returns returns nil; for every `e`, after any interleaving, once the responder
has run to its end, four statements of a reader bring it to its return; when
`e` is not nil the readers are not bound to agree nor to return `e`: with two
readers there is a sequentially consistent interleaving on which one returns
`e` and the other nil, and one on which the responder has returned and both
readers return nil. -/
theorem concurrent_readers_agree_only_on_nil {ε : Type} (n : Nat) (d : deferError ε)
    (e : error ε) (sched : List Act) (h : d.Fresh) :
    (∀ (i : Nat) (w : Words ε),
        (Sys.run none sched (Sys.start n d)).readers[i]? = some (.done w) →
        w = Words.whole none)
    ∧ (∀ i k1 k2 : Nat, i < n → ∃ w : Words ε,
        (Sys.run e
          (sched ++ [.respond, .respond, .respond] ++ List.replicate 4 (.reader i k1 k2))
          (Sys.start n d)).readers[i]? = some (.done w))
    ∧ (∀ x : ε, (Sys.run (some x) schedDisagree (Sys.start 2 d)).readers
        = [.done (Words.whole (some x)), .done (Words.whole none)])
    ∧ (∀ x : ε, (Sys.run (some x) schedLost (Sys.start 2 d)).readers
          = [.done (Words.whole none), .done (Words.whole none)]
        ∧ (Sys.run (some x) schedLost (Sys.start 2 d)).responder = .finished) := by
  refine ⟨?_, ?_, fun x => Sys.run_schedDisagree x d h, fun x => Sys.run_schedLost x d h⟩
  · intro i w hw
    have hinv := Sys.run_inv none sched (Sys.start n d) (Sys.start_inv none n d h)
    obtain ⟨ht, hd⟩ := (hinv.2.2 _ (List.getElem?_mem hw)).2 w rfl
    cases w with
    | mk tab data =>
      simp only at ht hd
      have h1 : tab = none := by rcases ht with hx | hx <;> exact hx
      have h2 : data = none := by rcases hd with hx | hx <;> exact hx
      subst h1
      subst h2
      rfl
  · intro i k1 k2 hi
    have hlive := Sys.run_live e sched (Sys.start n d) (Sys.start_live n d h)
    obtain ⟨l3, f3, q3⟩ := Sys.respond_thrice e _ hlive
    have hlen : (Sys.run e sched (Sys.start n d)).readers.length = n := by
      rw [Sys.length_run]
      simp [Sys.start]
    have hlt : i < (Sys.run e [.respond, .respond, .respond]
        (Sys.run e sched (Sys.start n d))).readers.length := by
      rw [q3, hlen]
      exact hi
    obtain ⟨pc1, h1, h2⟩ := Sys.reader_progress e i k1 k2 4 _ _ l3 f3
      (List.getElem?_eq_getElem hlt)
    have hr := ReaderPC.rank_le ((Sys.run e [.respond, .respond, .respond]
        (Sys.run e sched (Sys.start n d))).readers[i])
    obtain ⟨w, hw⟩ := @ReaderPC.done_of_rank ε pc1 (by omega)
    refine ⟨w, ?_⟩
    rw [Sys.run_append, Sys.run_append, h1, hw]

/-- Witness of C7 (amended): on the zero value after `init`, with `respond(nil)`
two readers whose reads observe stale values still return nil, and with a
non-nil error the two schedules end as stated. -/
theorem concurrent_readers_agree_only_on_nil_witness :
    (deferError.zero (ε := String)).init.Fresh
    ∧ (∀ (i : Nat) (w : Words String),
        (Sys.run none
          [.reader 0 0 0, .respond, .respond, .reader 1 3 1, .respond, .reader 0 0 0,
           .reader 0 0 0, .reader 1 0 0, .reader 0 1 2, .reader 1 0 0, .reader 1 2 1]
          (Sys.start 2 (deferError.zero (ε := String)).init)).readers[i]? = some (.done w) →
        w = Words.whole none)
    ∧ (Sys.run (some "boom") schedLost
        (Sys.start 2 (deferError.zero (ε := String)).init)).readers
      = [.done (Words.whole none), .done (Words.whole none)] :=
  ⟨⟨rfl, rfl⟩,
    (concurrent_readers_agree_only_on_nil 2 (deferError.zero (ε := String)).init
      (some "boom")
      [.reader 0 0 0, .respond, .respond, .reader 1 3 1, .respond, .reader 0 0 0,
       .reader 0 0 0, .reader 1 0 0, .reader 0 1 2, .reader 1 0 0, .reader 1 2 1]
      ⟨rfl, rfl⟩).1,
    ((concurrent_readers_agree_only_on_nil 2 (deferError.zero (ε := String)).init
      (some "boom") [] ⟨rfl, rfl⟩).2.2.2 "boom").1⟩

/-- The statement-level reader agrees with the method: when `d.Error()` returns
`v` in state `d1`, a reader that runs alone and observes the current value of
`d.err` returns `v` in one piece, in the same state, after its four
statements. -/
theorem reader_alone_agrees_with_Error {ε : Type} (e : error ε) (d d1 : deferError ε)
    (v : error ε) (pc : RespondPC) (h : d.Error = (d1, .ret v)) :
    (Sys.run e (List.replicate 4 (Act.now 0))
        { d := d, past := [], readers := [.check], responder := pc }).d = d1
      ∧ (Sys.run e (List.replicate 4 (Act.now 0))
        { d := d, past := [], readers := [.check], responder := pc }).readers
          = [.done (Words.whole v)] := by
  cases d with
  | mk err errCh =>
    cases err with
    | some x =>
      simp only [deferError.Error, Option.isSome_some, if_true, Prod.mk.injEq,
        Outcome.ret.injEq] at h
      obtain ⟨h1, h2⟩ := h
      subst h1
      subst h2
      exact ⟨rfl, rfl⟩
    | none =>
      cases errCh with
      | none =>
        simp [deferError.Error, chanrecv] at h
      | some c =>
        cases c with
        | mk cap buf closed =>
          cases buf with
          | cons x rest =>
            simp only [deferError.Error, chanrecv, Option.isSome_none, Bool.false_eq_true,
              if_false, Prod.mk.injEq, Outcome.ret.injEq] at h
            obtain ⟨h1, h2⟩ := h
            subst h1
            subst h2
            exact ⟨rfl, rfl⟩
          | nil =>
            cases closed with
            | false =>
              simp [deferError.Error, chanrecv] at h
            | true =>
              simp only [deferError.Error, chanrecv, Option.isSome_none, Bool.false_eq_true,
                if_false, if_true, Prod.mk.injEq, Outcome.ret.injEq] at h
              obtain ⟨h1, h2⟩ := h
              subst h1
              subst h2
              exact ⟨rfl, rfl⟩

/-- The statement-level responder agrees with the method: when `d.respond(e)`
returns in state `d1`, the responder running alone has returned in the same
state after its three statements. -/
theorem responder_alone_agrees_with_respond {ε : Type} (e : error ε) (d d1 : deferError ε)
    (rs : List (ReaderPC ε)) (h : d.respond e = (d1, .ret ())) :
    Sys.run e [.respond, .respond, .respond]
        { d := d, past := [], readers := rs, responder := .guard }
      = { d := d1, past := [], readers := rs, responder := .finished } := by
  cases d with
  | mk err errCh =>
    cases errCh with
    | none =>
      simp only [deferError.respond, Prod.mk.injEq, and_true] at h
      subst h
      rfl
    | some c =>
      cases c with
      | mk cap buf closed =>
        cases closed with
        | true =>
          simp [deferError.respond, chansend] at h
        | false =>
          by_cases hlen : buf.length < cap
          · simp only [deferError.respond, chansend, closechan, hlen, if_true,
              Bool.false_eq_true, if_false, Prod.mk.injEq, and_true] at h
            subst h
            simp only [Sys.run, List.foldl, Sys.step, respondStep, chansend, closechan, hlen,
              if_true, Bool.false_eq_true, if_false, Option.isNone_some]
          · simp [deferError.respond, chansend, hlen] at h

end Raft
